import Mathlib

/-!
Verification of the `@vafast/static` plugin (`src/index.ts`).

The embedding models the route builder `staticPlugin`, the static-mode
per-file handlers, and the dynamic-mode wildcard handler over an abstract
filesystem.  JavaScript strings are modelled as Lean `String`s; the
single-character JS string operations used by the source
(`String.prototype.replace` with a literal pattern, `split('.')` /
`splice(-1)` / `join('.')`, `includes`, `endsWith`) are modelled by
explicit structurally-recursive functions on `List Char` so that every
definition is executable and kernel-reducible.

`generateETag` and `isCached` are imported by the source from
`./cache`, a file of this repository that is not present under `src/`;
they are modelled from the specification (see `isCachedSpec` below) and
the handlers are parameterised over the conditional evaluator.

The embedding fixes the POSIX path separator (`sep = '/'`), so the
source's `isFSSepUnsafe` branches are resolved to their `sep === '/'`
side, and Node's `path.join` is modelled for the dot-free segment shapes
the plugin produces.
-/

/-- JS `s.replace(pat, repl)` with a literal (string) pattern replaces
the first occurrence only; this is the list-of-characters model.  An
empty pattern matches at position 0. -/
def replaceFirstAux (pat repl : List Char) : List Char → List Char
  | [] => if pat.isPrefixOf ([] : List Char) then repl else []
  | c :: cs =>
    if pat.isPrefixOf (c :: cs) then repl ++ (c :: cs).drop pat.length
    else c :: replaceFirstAux pat repl cs

/-- JS `s.replace(pat, repl)` (first occurrence, literal pattern) on strings. -/
def replaceFirst (s pat repl : String) : String :=
  ⟨replaceFirstAux pat.data repl.data s.data⟩

/-- Boolean test that `needle` occurs as a contiguous sublist of `hay`. -/
def listInfixB (needle : List Char) : List Char → Bool
  | [] => needle.isPrefixOf ([] : List Char)
  | c :: cs => needle.isPrefixOf (c :: cs) || listInfixB needle cs

/-- Model of JS `hay.includes(needle)`: `needle` occurs as a contiguous
substring of `hay`. -/
def strIncludes (hay needle : String) : Bool :=
  listInfixB needle.data hay.data

/-- Model of JS `s.endsWith(suffix)`. -/
def strEndsWith (s suffix : String) : Bool :=
  suffix.data.isSuffixOf s.data

/-- Model of JS `s.split('.')`: split a character list at every `'.'`. -/
def splitDot : List Char → List (List Char)
  | [] => [[]]
  | c :: cs =>
    match splitDot cs with
    | [] => [[]]
    | g :: gs => if c = '.' then [] :: g :: gs else (c :: g) :: gs

/-- Model of JS `groups.join('.')`. -/
def joinDot : List (List Char) → List Char
  | [] => []
  | [g] => g
  | g :: gs => g ++ '.' :: joinDot gs

/-- The `noExtension` transform of the source (lines 215-220):
`relativePath.split('.')`, `splice(-1)`, `join('.')` — i.e. drop the last
dot-separated group, on character lists. -/
def stripExtL (l : List Char) : List Char :=
  joinDot (splitDot l).dropLast

/-- The `noExtension` transform on strings. -/
def stripExt (s : String) : String :=
  ⟨stripExtL s.data⟩

/-- Model of POSIX `path.join(a, b)` for the argument shapes produced by
the plugin: segments free of `"."` / `".."` components and of repeated
separators, where `a` is the (possibly empty) URL prefix and `b` is the
(possibly empty) relative path.  Node returns `"."` when the joined
string is empty and collapses the duplicate separator at the seam. -/
def pathJoin (a b : String) : String :=
  if a = "" ∧ b = "" then "."
  else if a = "" then b
  else if b = "" then a
  else if strEndsWith a "/" ∧ b.data.head? = some '/' then a ++ ⟨b.data.drop 1⟩
  else if strEndsWith a "/" ∨ b.data.head? = some '/' then a ++ b
  else a ++ "/" ++ b

/-- An entry of `ignorePatterns`: either a JS string or a RegExp, the
latter modelled by its (boolean) test function. -/
inductive IgnorePattern where
  | str (s : String)
  | regex (test : String → Bool)

/-- The match test the source applies to one pattern (line 198-199):
for a string pattern `p` the source evaluates `p.includes(file)` — the
file path must occur inside the pattern string; for a RegExp it
evaluates `pattern.test(file)`. -/
def patternMatches : IgnorePattern → String → Bool
  | .str p, file => strIncludes p file
  | .regex t, file => t file

/-- JS truthiness of the value returned by `Array.prototype.find`: a
found string is truthy unless it is empty; a found RegExp object is
always truthy; `undefined` (no match) is falsy. -/
def foundTruthy : Option IgnorePattern → Bool
  | none => false
  | some (.str s) => !(s = "")
  | some (.regex _) => true

/-- `shouldIgnore` (source lines 194-201): `false` for an empty rule
list, otherwise the truthiness of
`ignorePatterns.find((pattern) => ...)`. -/
def shouldIgnore (pats : List IgnorePattern) (file : String) : Bool :=
  if pats.isEmpty then false
  else foundTruthy (pats.find? (fun p => patternMatches p file))

/-- File metadata returned by `stat`. -/
structure Stats where
  isDirectory : Bool
  mtime : Nat
  deriving DecidableEq, Repr

/-- The abstract filesystem / external world the handlers run against.
`stat`, `readFile` are the `fs/promises` primitives (an `Except` error
is a rejected promise).  `etag` is `generateETag` from the absent
`src/cache.ts` (it reads the file, so it can fail).  `decode` is
`decodeURI`, which throws a `URIError` on a malformed percent sequence
— modelled as an `Except` error. -/
structure FS where
  stat : String → Except Unit Stats
  readFile : String → Except Unit (List Nat)
  etag : String → Except Unit String
  decode : String → Except Unit String

/-- `fileExists` (source lines 20-24): `stat(path).then(() => true, () => false)`. -/
def fileExists (fs : FS) (path : String) : Bool :=
  match fs.stat path with
  | .ok _ => true
  | .error _ => false

/-- The plugin configuration (the options object of `staticPlugin`);
`pfx` is the `prefix` option. -/
structure Config where
  assets : String
  pfx : String
  staticLimit : Nat
  alwaysStatic : Bool
  ignorePatterns : List IgnorePattern
  noExtension : Bool
  enableDecodeURI : Bool
  headers : List (String × String)
  noCache : Bool
  maxAge : Option Nat
  directive : String
  indexHTML : Bool

/-- The prefix after the normalisation at source line 192:
`if (prefix === '/') prefix = ''`. -/
def pfxNorm (cfg : Config) : String :=
  if cfg.pfx = "/" then "" else cfg.pfx

/-- `assetsDir` (source line 205): `assets[0] === sep ? assets : resolve() + sep + assets`
with `resolve()` the current working directory. -/
def assetsDirOf (cfg : Config) (cwd : String) : String :=
  if cfg.assets.data.head? = some '/' then cfg.assets
  else cwd ++ "/" ++ cfg.assets

/-- What a generated route is: a per-file static route (carrying the
data its handler closure captures: the absolute file path, the
precomputed ETag, and the key passed to `isCached`), or the dynamic-mode
wildcard route. -/
inductive RouteKind where
  | staticFile (file etag cachedKey : String)
  | wildcard
  deriving DecidableEq, Repr

/-- A route descriptor `{ method, path, handler }`, the handler closure
replaced by the data it captures. -/
structure Route where
  method : String
  path : String
  kind : RouteKind
  deriving DecidableEq, Repr

/-- The relative path a file contributes in static mode (source lines
213-220): `absolutePath.replace(assetsDir, '')`, with the extension
stripped when `noExtension` holds. -/
def relPathOf (cfg : Config) (cwd : String) (f : String) : String :=
  let rel0 := replaceFirst f (assetsDirOf cfg cwd) ""
  if cfg.noExtension then stripExt rel0 else rel0

/-- The URL path of a static route (source lines 224-226, `sep = '/'`
side): `join(prefix, relativePath)`. -/
def urlPathOf (cfg : Config) (cwd : String) (f : String) : String :=
  pathJoin (pfxNorm cfg) (relPathOf cfg cwd f)

/-- Static-mode route emission for a single enumerated file (source
lines 211-286): skip empty or ignored paths, strip the assets dir
(`absolutePath.replace(assetsDir, '')`), optionally strip the extension,
compute the ETag, join the prefix, and emit the route — plus, when
`indexHTML` holds and the URL path ends with `"/index.html"`, a second
route at `pathName.replace('/index.html', '')` whose `isCached` key is
the URL `pathName` rather than the file path. -/
def routesFor (cfg : Config) (cwd : String) (fs : FS) (f : String) :
    Except Unit (List Route) :=
  if f = "" ∨ shouldIgnore cfg.ignorePatterns f then .ok []
  else
    match fs.etag f with
    | .error e => .error e
    | .ok etag =>
      let pathName := urlPathOf cfg cwd f
      let primary : Route := ⟨"GET", pathName, .staticFile f etag f⟩
      if cfg.indexHTML ∧ strEndsWith pathName "/index.html" then
        .ok [primary,
             ⟨"GET", replaceFirst pathName "/index.html" "",
              .staticFile f etag pathName⟩]
      else .ok [primary]

/-- Static-mode emission over the whole enumerated file list, in order. -/
def routesForAll (cfg : Config) (cwd : String) (fs : FS) :
    List String → Except Unit (List Route)
  | [] => .ok []
  | f :: rest =>
    match routesFor cfg cwd fs f with
    | .error e => .error e
    | .ok rs =>
      match routesForAll cfg cwd fs rest with
      | .error e => .error e
      | .ok rs2 => .ok (rs ++ rs2)

/-- `staticPlugin` as a route-list builder (source lines 188-396).
`envProd` models `process.env.ENV === 'production'`, `cwd` the working
directory, `files` the result of `listFiles(resolve(assets))`.  Static
mode runs per-file emission; otherwise exactly the single wildcard route
`prefix + "/*"` is pushed (the route list is empty at that point, so the
`wildcardExists` guard of lines 289-291 never fires). -/
def staticPlugin (cfg : Config) (envProd : Bool) (cwd : String) (fs : FS)
    (files : List String) : Except Unit (List Route) :=
  if cfg.alwaysStatic ∨ (envProd ∧ files.length ≤ cfg.staticLimit) then
    routesForAll cfg cwd fs files
  else .ok [⟨"GET", pfxNorm cfg ++ "/*", .wildcard⟩]

/-- The request validators read by the conditional evaluator, as parsed
from the request headers (`parseHeaders`).  `ifModifiedSince` is a
timestamp. -/
structure ReqHeaders where
  ifNoneMatch : Option String
  ifModifiedSince : Option Nat
  deriving DecidableEq, Repr

/-- A request as seen by the handlers: the URL's pathname
(`new URL(req.url).pathname`) and its parsed headers. -/
structure HttpRequest where
  pathname : String
  reqHeaders : ReqHeaders
  deriving DecidableEq, Repr

/-- Modelled from the spec: `isCached` (the Conditional Evaluator of
§4.4) lives in `src/cache.ts`, which is absent from the sources; per the
spec it returns true when the request carries an `If-None-Match` equal
to the computed ETag, else true when it carries an `If-Modified-Since`
at or after the last-modified time of the file named by the key, and
false otherwise; consulting the modification time is a filesystem
access, so it can fail. -/
def isCachedSpec (fs : FS) (h : ReqHeaders) (etag : String) (key : String) :
    Except Unit Bool :=
  if h.ifNoneMatch = some etag then .ok true
  else
    match h.ifModifiedSince with
    | none => .ok false
    | some t =>
      match fs.stat key with
      | .error e => .error e
      | .ok st => .ok (decide (st.mtime ≤ t))

/-- The type of the conditional evaluator the handlers call. -/
abbrev CondEval := ReqHeaders → String → String → Except Unit Bool

/-- JS object property assignment `obj[k] = v` on an insertion-ordered
record modelled as an association list: update in place when the key is
present, append otherwise. -/
def setHeader (hs : List (String × String)) (k v : String) :
    List (String × String) :=
  if hs.any (fun p => p.1 = k) then
    hs.map (fun p => if p.1 = k then (k, v) else p)
  else hs ++ [(k, v)]

/-- First-match lookup in a header record. -/
def getHeader (hs : List (String × String)) (k : String) : Option String :=
  (hs.find? (fun p => p.1 = k)).map (fun p => p.2)

/-- The `Cache-Control` value built at source lines 246-248 / 379-381:
the directive, extended with `", max-age=<n>"` when `maxAge` is not
null. -/
def ccValue (cfg : Config) : String :=
  match cfg.maxAge with
  | none => cfg.directive
  | some n => cfg.directive ++ ", max-age=" ++ toString n

/-- The full-response headers (source lines 244-248 / 377-381):
`{...headers}` then `Etag`, then `Cache-Control`. -/
def cacheHeaders (cfg : Config) (etag : String) : List (String × String) :=
  setHeader (setHeader cfg.headers "Etag" etag) "Cache-Control" (ccValue cfg)

/-- What a static-mode handler returns: a full response
(`new Response(body, { headers })`, status 200) or
`empty(304, headers)`. -/
inductive Outcome where
  | response (status : Nat) (headers : List (String × String)) (body : List Nat)
  | empty (status : Nat) (headers : List (String × String))
  deriving DecidableEq, Repr

/-- The static-mode handler closures (source lines 231-254 and 261-284),
parameterised over the conditional evaluator `ev` and applied to the
captured data `(file, etag, cachedKey)`: with `noCache` it reads the
file and replies 200 with the configured headers; otherwise it consults
the evaluator with the captured ETag and key, replying `empty(304,
headers)` on a hit and a full 200 with `Etag`/`Cache-Control` attached
otherwise.  A `.error` is a rejected promise propagating to the
dispatcher (these handlers have no try/catch). -/
def runStaticRoute (cfg : Config) (fs : FS) (ev : CondEval)
    (file etag cachedKey : String) (h : ReqHeaders) : Except Unit Outcome :=
  if cfg.noCache then
    match fs.readFile file with
    | .error e => .error e
    | .ok buf => .ok (.response 200 cfg.headers buf)
  else
    match ev h etag cachedKey with
    | .error e => .error e
    | .ok true => .ok (.empty 304 cfg.headers)
    | .ok false =>
      match fs.readFile file with
      | .error e => .error e
      | .ok buf => .ok (.response 200 (cacheHeaders cfg etag) buf)

/-- The three shared caches of the dynamic handler (the node-cache
instances of source lines 26-45), with the library's TTL/size-bound
eviction abstracted away: any reachable cache content is a possible
state. -/
structure Caches where
  statC : String → Option Stats
  fileC : String → Option String
  htmlC : String → Option Bool

/-- Functional update of the stat cache (`statCache.set`). -/
def setStatC (st : Caches) (k : String) (v : Stats) : Caches :=
  { st with statC := fun p => if p = k then some v else st.statC p }

/-- Functional update of the resolved-file cache (`fileCache.set`). -/
def setFileC (st : Caches) (k : String) (v : String) : Caches :=
  { st with fileC := fun p => if p = k then some v else st.fileC p }

/-- The stat-resolution step (source lines 315-319): consult the stat
cache; on a miss, `stat` the filesystem and populate the cache — a
`stat` rejection propagates with the cache unchanged. -/
def statResolve (fs : FS) (st : Caches) (path : String) :
    Except Unit Stats × Caches :=
  match st.statC path with
  | some s => (.ok s, st)
  | none =>
    match fs.stat path with
    | .ok s => (.ok s, setStatC st path s)
    | .error e => (.error e, st)

/-- The file-path-resolution step (source lines 324-361): consult the
resolved-file cache; on a miss, a directory resolves to
`path + "/index.html"` when `indexHTML` holds and the index-existence
cache (or, on a miss there, `fileExists`) affirms it — else it throws;
a regular file resolves to itself.  The `hasCache === undefined` writes
to `htmlCache` at lines 340-344 and 349-353 are dead (the `??` operator
has already replaced `undefined`), so the html cache is only read. -/
def fileResolve (cfg : Config) (fs : FS) (st : Caches) (path : String)
    (status : Stats) : Except Unit String × Caches :=
  match st.fileC path with
  | some fp => (.ok fp, st)
  | none =>
    if status.isDirectory then
      let idx := path ++ "/index.html"
      let hasCache :=
        match st.htmlC idx with
        | some b => b
        | none => fileExists fs idx
      if cfg.indexHTML && hasCache then (.ok idx, setFileC st path idx)
      else (.error (), st)
    else (.ok path, setFileC st path path)

/-- What the wildcard handler hands the dispatcher: a full 200, a 304,
a thrown `NotFoundError` — or a raw uncaught exception
(`uncaughtError`): the `URIError` thrown by `decodeURI` at source lines
302-304, which runs before the `try` at line 314 and therefore escapes
the handler unconverted. -/
inductive DynOutcome where
  | ok200 (headers : List (String × String)) (body : List Nat)
  | notModified (headers : List (String × String))
  | notFoundError
  | uncaughtError
  deriving DecidableEq, Repr

/-- Whether an outcome is within the 200 / 304 / uniform-NotFound
trichotomy (everything except a raw uncaught exception). -/
def isHandledOutcome : DynOutcome → Bool
  | .uncaughtError => false
  | _ => true

/-- The serving tail of the wildcard handler (source lines 363-386):
with `noCache`, read and reply 200 with the configured headers; else
compute the ETag of the resolved file and call the conditional evaluator
— with the UNRESOLVED `path` as the key, exactly as the source does at
line 374 — replying `empty(304, headers)` on a hit and a full 200
otherwise. -/
def dynServe (cfg : Config) (fs : FS) (ev : CondEval) (path fp : String)
    (h : ReqHeaders) : Except Unit DynOutcome :=
  if cfg.noCache then
    match fs.readFile fp with
    | .error e => .error e
    | .ok buf => .ok (.ok200 cfg.headers buf)
  else
    match fs.etag fp with
    | .error e => .error e
    | .ok etag =>
      match ev h etag path with
      | .error e => .error e
      | .ok true => .ok (.notModified cfg.headers)
      | .ok false =>
        match fs.readFile fp with
        | .error e => .error e
        | .ok buf => .ok (.ok200 (cacheHeaders cfg etag) buf)

/-- The `try` block of the wildcard handler (source lines 314-386):
stat resolution, the `!indexHTML && isDirectory` rejection, file-path
resolution, then serving; every failure is an error of the `Except`. -/
def dynPipeline (cfg : Config) (fs : FS) (ev : CondEval) (st : Caches)
    (path : String) (h : ReqHeaders) : Except Unit DynOutcome × Caches :=
  match statResolve fs st path with
  | (.error e, st1) => (.error e, st1)
  | (.ok status, st1) =>
    if !cfg.indexHTML && status.isDirectory then (.error (), st1)
    else
      match fileResolve cfg fs st1 path status with
      | (.error e, st2) => (.error e, st2)
      | (.ok fp, st2) => (dynServe cfg fs ev path fp h, st2)

/-- The candidate filesystem path the wildcard handler derives from a
request (source lines 299-309): strip the prefix from the URL pathname
(`urlPath.replace(prefix, '')`), concatenate onto `assets`, and
percent-decode when `enableDecodeURI` holds (with `sep = '/'` the
separator rewrite is the identity).  The decode step runs before the
`try` block, so its `URIError` is an error of this computation, not a
`NotFoundError`. -/
def candidatePath (cfg : Config) (fs : FS) (req : HttpRequest) :
    Except Unit String :=
  let wildcardPath := replaceFirst req.pathname (pfxNorm cfg) ""
  if cfg.enableDecodeURI then fs.decode (cfg.assets ++ wildcardPath)
  else .ok (cfg.assets ++ wildcardPath)

/-- The dynamic-mode wildcard handler (source lines 297-390): derive the
candidate path — a `decodeURI` throw here escapes raw, as
`uncaughtError` —, reject ignored paths with `NotFoundError`, then run
the `try` block, the `catch` converting any failure into a fresh
`NotFoundError`. -/
def wildcardHandler (cfg : Config) (fs : FS) (ev : CondEval) (st : Caches)
    (req : HttpRequest) : DynOutcome × Caches :=
  match candidatePath cfg fs req with
  | .error _ => (.uncaughtError, st)
  | .ok path =>
    if shouldIgnore cfg.ignorePatterns path then (.notFoundError, st)
    else
      match dynPipeline cfg fs ev st path req.reqHeaders with
      | (.ok o, st1) => (o, st1)
      | (.error _, st1) => (.notFoundError, st1)

deriving instance DecidableEq for Except

/-- The all-empty cache state (fresh node-cache instances). -/
def emptyCaches : Caches :=
  { statC := fun _ => none, fileC := fun _ => none, htmlC := fun _ => none }

/-- A filesystem on which every `stat` fails and every ETag is `"E"`
(enough for build-time fixtures that never stat). -/
def fsConst : FS :=
  { stat := fun _ => .error (), readFile := fun _ => .ok [1],
    etag := fun _ => .ok "E", decode := fun s => .ok s }

/-- Baseline configuration used by the concrete fixtures: the source's
defaults with `assets = "public"` and `prefix = "/public"`. -/
def cfgBase : Config :=
  { assets := "public", pfx := "/public", staticLimit := 1024,
    alwaysStatic := false, ignorePatterns := [], noExtension := false,
    enableDecodeURI := false, headers := [], noCache := false,
    maxAge := some 86400, directive := "public", indexHTML := true }

/-- Fixture for the ignore-rule claim: the default `'.DS_Store'` ignore
rule, static mode forced. -/
def cfgC1 : Config :=
  { cfgBase with alwaysStatic := true,
                 ignorePatterns := [IgnorePattern.str ".DS_Store"] }

/-- Fixture filesystem for the freshness-key claim: `public/html` is a
directory last modified at time 100 whose `index.html` is a regular
file last modified at time 500. -/
def fsC5 : FS :=
  { stat := fun p =>
      if p = "public/html" then .ok ⟨true, 100⟩
      else if p = "public/html/index.html" then .ok ⟨false, 500⟩
      else .error (),
    readFile := fun p =>
      if p = "public/html/index.html" then .ok [7, 8] else .error (),
    etag := fun p =>
      if p = "public/html/index.html" then .ok "E1" else .error (),
    decode := fun s => .ok s }

/-- A request for `/public/html` carrying only
`If-Modified-Since: 200` — after the directory's mtime, before the
index file's mtime. -/
def reqC5 : HttpRequest :=
  { pathname := "/public/html",
    reqHeaders := { ifNoneMatch := none, ifModifiedSince := some 200 } }

/-- Fixture filesystem with the single regular file `public/a.txt`
(mtime 100, content `[1, 2]`, ETag `"ET"`). -/
def fsC4 : FS :=
  { stat := fun p => if p = "public/a.txt" then .ok ⟨false, 100⟩ else .error (),
    readFile := fun p => if p = "public/a.txt" then .ok [1, 2] else .error (),
    etag := fun p => if p = "public/a.txt" then .ok "ET" else .error (),
    decode := fun s => .ok s }

/-- Fixture for the index-route suffix claim: the URL prefix itself is
`"/index.html"`. -/
def cfgC8 : Config :=
  { cfgBase with pfx := "/index.html", alwaysStatic := true }

/-- Fixture for the extension-stripping edge claim: prefix `"/"` and
`noExtension` set. -/
def cfgC10 : Config :=
  { cfgBase with pfx := "/", alwaysStatic := true, noExtension := true }

/-- Fixture for the decode-escape counterexample: the default
configuration with `enableDecodeURI` set. -/
def cfgDec : Config :=
  { cfgBase with enableDecodeURI := true }

/-- Fixture filesystem on which decoding the malformed candidate
`public/%zz` throws a `URIError` (every other string decodes to
itself). -/
def fsBadURI : FS :=
  { stat := fun _ => .error (), readFile := fun _ => .error (),
    etag := fun _ => .error (),
    decode := fun s => if s = "public/%zz" then .error () else .ok s }

/-- A request whose sub-path carries the malformed percent sequence
`%zz` (left verbatim in the pathname by WHATWG URL parsing). -/
def reqBadURI : HttpRequest :=
  { pathname := "/public/%zz",
    reqHeaders := { ifNoneMatch := none, ifModifiedSince := none } }

/-- Fixture filesystem holding the single regular file
`public/.DS_Store` (used for the dynamic side of the ignore-rule
claim). -/
def fsDS : FS :=
  { stat := fun p => if p = "public/.DS_Store" then .ok ⟨false, 50⟩ else .error (),
    readFile := fun p => if p = "public/.DS_Store" then .ok [9] else .error (),
    etag := fun p => if p = "public/.DS_Store" then .ok "ED" else .error (),
    decode := fun s => .ok s }

/-- A request for `/public/.DS_Store` with no validators. -/
def reqDS : HttpRequest :=
  { pathname := "/public/.DS_Store",
    reqHeaders := { ifNoneMatch := none, ifModifiedSince := none } }

/-- A request for `/public/x` with no validators. -/
def reqPlain : HttpRequest :=
  { pathname := "/public/x",
    reqHeaders := { ifNoneMatch := none, ifModifiedSince := none } }

/-- A conditional evaluator that always reports a cache hit (used to
exercise evaluator-independence with `noCache`). -/
def evAlwaysHit : CondEval := fun _ _ _ => .ok true

theorem getHeader_map_set_hit (hs : List (String × String)) (k v : String)
    (h : hs.any (fun p => p.1 = k) = true) :
    getHeader (hs.map (fun p => if p.1 = k then (k, v) else p)) k = some v := by
  induction hs with
  | nil => simp at h
  | cons q t ih =>
    by_cases hq : q.1 = k
    · simp [getHeader, List.find?_cons_of_pos, hq]
    · have ht : t.any (fun p => p.1 = k) = true := by
        simp [List.any_cons, hq] at h
        simpa using h
      have := ih ht
      simpa [getHeader, List.find?_cons_of_neg, hq] using this

theorem getHeader_map_set_other (hs : List (String × String)) (k v k' : String)
    (hne : k' ≠ k) :
    getHeader (hs.map (fun p => if p.1 = k then (k, v) else p)) k' =
      getHeader hs k' := by
  induction hs with
  | nil => simp
  | cons q t ih =>
    by_cases hq : q.1 = k
    · have h1 : ¬ ((k, v).1 = k') := fun hk => hne hk.symm
      have h2 : ¬ (q.1 = k') := fun hk => hne (hq.symm.trans hk).symm
      rw [List.map_cons, if_pos hq, getHeader, getHeader,
        List.find?_cons_of_neg _ (by simpa using h1),
        List.find?_cons_of_neg _ (by simpa using h2)]
      exact ih
    · rw [List.map_cons, if_neg hq]
      by_cases hk' : q.1 = k'
      · rw [getHeader, getHeader, List.find?_cons_of_pos _ (by simpa using hk'),
          List.find?_cons_of_pos _ (by simpa using hk')]
      · rw [getHeader, getHeader, List.find?_cons_of_neg _ (by simpa using hk'),
          List.find?_cons_of_neg _ (by simpa using hk')]
        exact ih

theorem getHeader_append_single_hit (hs : List (String × String)) (k v : String)
    (h : hs.any (fun p => p.1 = k) = false) :
    getHeader (hs ++ [(k, v)]) k = some v := by
  induction hs with
  | nil => simp [getHeader]
  | cons q t ih =>
    rw [List.any_cons, Bool.or_eq_false_iff] at h
    have hq : ¬ (q.1 = k) := of_decide_eq_false h.1
    have := ih h.2
    rw [List.cons_append, getHeader,
      List.find?_cons_of_neg _ (by simpa using hq)]
    exact this

theorem getHeader_append_single_other (hs : List (String × String))
    (k v k' : String) (hne : k' ≠ k) :
    getHeader (hs ++ [(k, v)]) k' = getHeader hs k' := by
  induction hs with
  | nil =>
    have hkk : ¬ ((k, v).1 = k') := fun hk => hne hk.symm
    rw [List.nil_append, getHeader, getHeader,
      List.find?_cons_of_neg _ (by simpa using hkk)]
  | cons q t ih =>
    rw [List.cons_append]
    by_cases hk' : q.1 = k'
    · rw [getHeader, getHeader, List.find?_cons_of_pos _ (by simpa using hk'),
        List.find?_cons_of_pos _ (by simpa using hk')]
    · rw [getHeader, getHeader, List.find?_cons_of_neg _ (by simpa using hk'),
        List.find?_cons_of_neg _ (by simpa using hk')]
      exact ih

theorem getHeader_setHeader_same (hs : List (String × String)) (k v : String) :
    getHeader (setHeader hs k v) k = some v := by
  unfold setHeader
  by_cases h : hs.any (fun p => p.1 = k) = true
  · rw [if_pos h]
    exact getHeader_map_set_hit hs k v h
  · rw [if_neg h]
    exact getHeader_append_single_hit hs k v (Bool.eq_false_iff.mpr h)

theorem getHeader_setHeader_other (hs : List (String × String))
    (k v k' : String) (hne : k' ≠ k) :
    getHeader (setHeader hs k v) k' = getHeader hs k' := by
  unfold setHeader
  by_cases h : hs.any (fun p => p.1 = k) = true
  · rw [if_pos h]
    exact getHeader_map_set_other hs k v k' hne
  · rw [if_neg h]
    exact getHeader_append_single_other hs k v k' hne

theorem getHeader_cacheHeaders_etag (cfg : Config) (e : String) :
    getHeader (cacheHeaders cfg e) "Etag" = some e := by
  unfold cacheHeaders
  rw [getHeader_setHeader_other _ _ _ _ (by decide)]
  exact getHeader_setHeader_same _ _ _

theorem getHeader_cacheHeaders_cc (cfg : Config) (e : String) :
    getHeader (cacheHeaders cfg e) "Cache-Control" = some (ccValue cfg) := by
  unfold cacheHeaders
  exact getHeader_setHeader_same _ _ _

theorem getHeader_cacheHeaders_other (cfg : Config) (e key : String)
    (h1 : key ≠ "Etag") (h2 : key ≠ "Cache-Control") :
    getHeader (cacheHeaders cfg e) key = getHeader cfg.headers key := by
  unfold cacheHeaders
  rw [getHeader_setHeader_other _ _ _ _ h2, getHeader_setHeader_other _ _ _ _ h1]

theorem splitDot_ne_nil (l : List Char) : splitDot l ≠ [] := by
  cases l with
  | nil => simp [splitDot]
  | cons c cs =>
    unfold splitDot
    cases h : splitDot cs with
    | nil => simp
    | cons g gs =>
      by_cases hc : c = '.' <;> simp [hc]

theorem splitDot_cons_eq (c : Char) (cs g : List Char) (gs : List (List Char))
    (h : splitDot cs = g :: gs) :
    splitDot (c :: cs) = if c = '.' then [] :: g :: gs else (c :: g) :: gs := by
  unfold splitDot
  rw [h]

theorem joinDot_cons_cons (g g2 : List Char) (t : List (List Char)) :
    joinDot (g :: g2 :: t) = g ++ '.' :: joinDot (g2 :: t) := rfl

theorem joinDot_splitDot (l : List Char) : joinDot (splitDot l) = l := by
  induction l with
  | nil => rfl
  | cons c cs ih =>
    cases h : splitDot cs with
    | nil => exact absurd h (splitDot_ne_nil cs)
    | cons g gs =>
      rw [h] at ih
      rw [splitDot_cons_eq c cs g gs h]
      by_cases hc : c = '.'
      · subst hc
        rw [if_pos rfl, joinDot_cons_cons, List.nil_append, ih]
      · rw [if_neg hc]
        cases gs with
        | nil =>
          rw [joinDot] at ih ⊢
          rw [ih]
        | cons g2 t =>
          rw [joinDot_cons_cons] at ih
          rw [joinDot_cons_cons, List.cons_append, ih]

theorem splitDot_groups_no_dot (l : List Char) :
    ∀ g ∈ splitDot l, '.' ∉ g := by
  induction l with
  | nil =>
    intro g hg
    simp [splitDot] at hg
    simp [hg]
  | cons c cs ih =>
    intro g hg
    cases h : splitDot cs with
    | nil => exact absurd h (splitDot_ne_nil cs)
    | cons g0 gs0 =>
      rw [splitDot_cons_eq c cs g0 gs0 h] at hg
      rw [h] at ih
      by_cases hc : c = '.'
      · rw [if_pos hc] at hg
        rcases List.mem_cons.mp hg with h1 | h2
        · simp [h1]
        · exact ih g h2
      · rw [if_neg hc] at hg
        rcases List.mem_cons.mp hg with h1 | h2
        · subst h1
          intro hd
          rcases List.mem_cons.mp hd with h3 | h4
          · exact hc h3.symm
          · exact ih g0 (List.mem_cons_self g0 gs0) h4
        · exact ih g (List.mem_cons.mpr (Or.inr h2))

theorem splitDot_no_dot (l : List Char) (h : '.' ∉ l) : splitDot l = [l] := by
  induction l with
  | nil => rfl
  | cons c cs ih =>
    have hc : ¬ (c = '.') := fun hc => h (hc ▸ List.mem_cons_self c cs)
    have hcs : '.' ∉ cs := fun hm => h (List.mem_cons.mpr (Or.inr hm))
    rw [splitDot_cons_eq c cs cs [] (ih hcs), if_neg hc]

theorem splitDot_two_le_of_dot (l : List Char) (h : '.' ∈ l) :
    2 ≤ (splitDot l).length := by
  induction l with
  | nil => simp at h
  | cons c cs ih =>
    cases hs : splitDot cs with
    | nil => exact absurd hs (splitDot_ne_nil cs)
    | cons g gs =>
      rw [splitDot_cons_eq c cs g gs hs]
      by_cases hc : c = '.'
      · rw [if_pos hc]
        simp
      · rw [if_neg hc]
        have hcs : '.' ∈ cs := by
          rcases List.mem_cons.mp h with h1 | h2
          · exact absurd h1.symm hc
          · exact h2
        have := ih hcs
        rw [hs] at this
        simpa using this

theorem joinDot_append_single (gs : List (List Char)) (g : List Char)
    (h : gs ≠ []) : joinDot (gs ++ [g]) = joinDot gs ++ '.' :: g := by
  induction gs with
  | nil => exact absurd rfl h
  | cons a t ih =>
    cases t with
    | nil => rfl
    | cons b t2 =>
      have h2 := ih (by simp)
      rw [List.cons_append] at h2
      rw [List.cons_append, List.cons_append, joinDot_cons_cons, h2,
        joinDot_cons_cons, List.append_assoc, List.cons_append]

theorem stripExtL_decomp (l : List Char) (h : '.' ∈ l) :
    ∃ sfx, l = stripExtL l ++ '.' :: sfx ∧ '.' ∉ sfx := by
  have h2 := splitDot_two_le_of_dot l h
  have hne := splitDot_ne_nil l
  have hlast := List.dropLast_append_getLast hne
  have hdrop_ne : (splitDot l).dropLast ≠ [] := by
    intro hnil
    have hl := List.length_dropLast (splitDot l)
    rw [hnil] at hl
    simp at hl
    omega
  refine ⟨(splitDot l).getLast hne, ?_, ?_⟩
  · conv_lhs => rw [← joinDot_splitDot l, ← hlast]
    rw [joinDot_append_single _ _ hdrop_ne]
    unfold stripExtL
    rfl
  · exact splitDot_groups_no_dot l _ (List.getLast_mem hne)

theorem stripExtL_no_dot (l : List Char) (h : '.' ∉ l) : stripExtL l = [] := by
  unfold stripExtL
  rw [splitDot_no_dot l h]
  rfl
theorem routesFor_no_wildcard (cfg : Config) (cwd : String) (fs : FS)
    (f : String) (lf : List Route) (r : Route)
    (h : routesFor cfg cwd fs f = .ok lf) (hr : r ∈ lf) :
    r.kind ≠ RouteKind.wildcard := by
  unfold routesFor at h
  by_cases hskip : f = "" ∨ shouldIgnore cfg.ignorePatterns f = true
  · rw [if_pos (by simpa using hskip)] at h
    injection h with h
    subst h
    simp at hr
  · rw [if_neg (by simpa using hskip)] at h
    cases he : fs.etag f with
    | error e =>
      rw [he] at h
      exact Except.noConfusion h
    | ok etag =>
      simp only [he] at h
      by_cases hidx : cfg.indexHTML ∧ strEndsWith (urlPathOf cfg cwd f) "/index.html" = true
      · rw [if_pos hidx] at h
        injection h with h
        subst h
        rcases List.mem_cons.mp hr with h1 | h2
        · subst h1; simp
        · rcases List.mem_cons.mp h2 with h3 | h4
          · subst h3; simp
          · simp at h4
      · rw [if_neg hidx] at h
        injection h with h
        subst h
        rcases List.mem_cons.mp hr with h1 | h2
        · subst h1; simp
        · simp at h2

theorem routesForAll_no_wildcard (cfg : Config) (cwd : String) (fs : FS) :
    ∀ (files : List String) (rs : List Route) (r : Route),
      routesForAll cfg cwd fs files = .ok rs → r ∈ rs →
      r.kind ≠ RouteKind.wildcard := by
  intro files
  induction files with
  | nil =>
    intro rs r h hr
    unfold routesForAll at h
    injection h with h
    subst h
    simp at hr
  | cons g rest ih =>
    intro rs r h hr
    rw [routesForAll] at h
    cases h1 : routesFor cfg cwd fs g with
    | error e =>
      rw [h1] at h
      exact Except.noConfusion h
    | ok rs1 =>
      rw [h1] at h
      cases h2 : routesForAll cfg cwd fs rest with
      | error e =>
        rw [h2] at h
        exact Except.noConfusion h
      | ok rs2 =>
        rw [h2] at h
        injection h with h
        subst h
        rcases List.mem_append.mp hr with hm | hm
        · exact routesFor_no_wildcard cfg cwd fs g rs1 r h1 hm
        · exact ih rs2 r h2 hm

theorem routesForAll_sub (cfg : Config) (cwd : String) (fs : FS) :
    ∀ (files : List String) (rs : List Route) (f : String) (lf : List Route),
      routesForAll cfg cwd fs files = .ok rs → f ∈ files →
      routesFor cfg cwd fs f = .ok lf → ∀ r ∈ lf, r ∈ rs := by
  intro files
  induction files with
  | nil =>
    intro rs f lf _ hf
    simp at hf
  | cons g rest ih =>
    intro rs f lf hall hf hfor r hr
    rw [routesForAll] at hall
    cases h1 : routesFor cfg cwd fs g with
    | error e =>
      rw [h1] at hall
      exact Except.noConfusion hall
    | ok rs1 =>
      rw [h1] at hall
      cases h2 : routesForAll cfg cwd fs rest with
      | error e =>
        rw [h2] at hall
        exact Except.noConfusion hall
      | ok rs2 =>
        rw [h2] at hall
        injection hall with hall
        subst hall
        rcases List.mem_cons.mp hf with hfg | hfr
        · subst hfg
          have hlf : rs1 = lf := by
            have := h1.symm.trans hfor
            injection this
          exact List.mem_append.mpr (Or.inl (hlf ▸ hr))
        · exact List.mem_append.mpr (Or.inr (ih rs2 f lf h2 hfr hfor r hr))
/-- C2: static mode (per-file routes) is selected exactly when the
caller forces it via `alwaysStatic`, or the environment designates
always-serve-statically (`process.env.ENV === 'production'`) and the
enumerated file count is at or below `staticLimit`; otherwise dynamic
mode emits exactly one wildcard route whose path is the (normalised)
prefix followed by `"/*"`, and the route list never holds two wildcard
routes. -/
theorem c2_mode_selection (cfg : Config) (envProd : Bool) (cwd : String)
    (fs : FS) (files : List String) (rs : List Route)
    (hb : staticPlugin cfg envProd cwd fs files = .ok rs) :
    (¬(cfg.alwaysStatic = true ∨ (envProd = true ∧ files.length ≤ cfg.staticLimit)) →
        rs = [⟨"GET", pfxNorm cfg ++ "/*", RouteKind.wildcard⟩])
  ∧ ((cfg.alwaysStatic = true ∨ (envProd = true ∧ files.length ≤ cfg.staticLimit)) →
        ∀ r ∈ rs, r.kind ≠ RouteKind.wildcard)
  ∧ (rs.filter (fun r => r.kind == RouteKind.wildcard)).length ≤ 1 := by
  unfold staticPlugin at hb
  split at hb
  · next hc =>
      refine ⟨fun hn => absurd hc hn,
        fun _ r hr => routesForAll_no_wildcard cfg cwd fs files rs r hb hr, ?_⟩
      have hnil : rs.filter (fun r => r.kind == RouteKind.wildcard) = [] := by
        rw [List.filter_eq_nil_iff]
        intro r hr
        have := routesForAll_no_wildcard cfg cwd fs files rs r hb hr
        simpa using this
      rw [hnil]
      simp
  · next hc =>
      injection hb with hb
      refine ⟨fun _ => hb.symm, fun hcc => absurd hcc hc, ?_⟩
      rw [← hb]
      simp

/-- C2 witness: with `alwaysStatic = false` and a non-production
environment the plugin emits exactly the single wildcard route
`"/public/*"`. -/
theorem c2_mode_selection_witness :
    ([⟨"GET", "/public/*", RouteKind.wildcard⟩] : List Route) =
      [⟨"GET", pfxNorm cfgBase ++ "/*", RouteKind.wildcard⟩] :=
  (c2_mode_selection cfgBase false "/w" fsConst []
      [⟨"GET", "/public/*", RouteKind.wildcard⟩] (by decide)).1 (by decide)
theorem staticPlugin_static_mode (cfg : Config) (envProd : Bool)
    (cwd : String) (fs : FS) (files : List String) (rs : List Route)
    (hb : staticPlugin cfg envProd cwd fs files = .ok rs)
    (hmode : cfg.alwaysStatic = true ∨
      (envProd = true ∧ files.length ≤ cfg.staticLimit)) :
    routesForAll cfg cwd fs files = .ok rs := by
  unfold staticPlugin at hb
  split at hb
  · exact hb
  · next hc => exact absurd hmode hc

theorem routesFor_ok_primary (cfg : Config) (cwd : String) (fs : FS)
    (f e : String) (hne : f ≠ "")
    (hig : shouldIgnore cfg.ignorePatterns f = false)
    (het : fs.etag f = .ok e) :
    ∃ lf, routesFor cfg cwd fs f = .ok lf ∧
      (⟨"GET", urlPathOf cfg cwd f, RouteKind.staticFile f e f⟩ : Route) ∈ lf ∧
      (cfg.indexHTML = true →
       strEndsWith (urlPathOf cfg cwd f) "/index.html" = true →
       (⟨"GET", replaceFirst (urlPathOf cfg cwd f) "/index.html" "",
         RouteKind.staticFile f e (urlPathOf cfg cwd f)⟩ : Route) ∈ lf) := by
  have hskip : ¬ (f = "" ∨ shouldIgnore cfg.ignorePatterns f = true) := by
    rintro (h1 | h2)
    · exact hne h1
    · rw [hig] at h2
      exact Bool.noConfusion h2
  unfold routesFor
  rw [if_neg (by simpa using hskip)]
  simp only [het]
  by_cases hidx : cfg.indexHTML = true ∧
      strEndsWith (urlPathOf cfg cwd f) "/index.html" = true
  · refine ⟨[⟨"GET", urlPathOf cfg cwd f, RouteKind.staticFile f e f⟩,
      ⟨"GET", replaceFirst (urlPathOf cfg cwd f) "/index.html" "",
       RouteKind.staticFile f e (urlPathOf cfg cwd f)⟩], ?_, by simp,
      fun _ _ => by simp⟩
    rw [if_pos hidx]
  · refine ⟨[⟨"GET", urlPathOf cfg cwd f, RouteKind.staticFile f e f⟩],
      ?_, by simp, fun h1 h2 => absurd ⟨h1, h2⟩ hidx⟩
    rw [if_neg hidx]

/-- C1: the ignore-rule claim is contradicted by the code: `shouldIgnore`
evaluates `pattern.includes(file)` — the path must occur inside the rule
string, the reverse of the claimed substring direction — so the default
rule `".DS_Store"`, which occurs as a literal substring of the path
`"/w/public/.DS_Store"`, ignores nothing: static mode still emits a
route for that file, and the dynamic handler still serves
`public/.DS_Store` instead of failing with NotFound. -/
theorem c1_ignore_rule_reversed :
    shouldIgnore [IgnorePattern.str ".DS_Store"] "/w/public/.DS_Store" = false
  ∧ strIncludes "/w/public/.DS_Store" ".DS_Store" = true
  ∧ staticPlugin cfgC1 true "/w" fsConst ["/w/public/.DS_Store"] =
      .ok [⟨"GET", "/public/.DS_Store",
            RouteKind.staticFile "/w/public/.DS_Store" "E" "/w/public/.DS_Store"⟩]
  ∧ shouldIgnore cfgC1.ignorePatterns "public/.DS_Store" = false
  ∧ (wildcardHandler { cfgC1 with alwaysStatic := false } fsDS
        (isCachedSpec fsDS) emptyCaches reqDS).1 ≠ DynOutcome.notFoundError := by
  refine ⟨by decide, by decide, by decide, by decide, by decide⟩
/-- C3 counterexample: with `enableDecodeURI` set, a malformed percent
sequence in the sub-path makes `decodeURI` throw before the `try` block
(source lines 302-314), and the raw `URIError` escapes the handler: the
outcome is neither 200, nor 304, nor the uniform NotFound. -/
theorem c3_decode_error_escapes_raw :
    (wildcardHandler cfgDec fsBadURI (isCachedSpec fsBadURI) emptyCaches
        reqBadURI).1 = DynOutcome.uncaughtError
  ∧ isHandledOutcome
      ((wildcardHandler cfgDec fsBadURI (isCachedSpec fsBadURI) emptyCaches
          reqBadURI).1) = false
  ∧ cfgDec.enableDecodeURI = true := by
  refine ⟨by decide, by decide, by decide⟩

/-- C3 (amended): for every request whose sub-path percent-decoding does
not throw — in particular every request when `enableDecodeURI` is
disabled — the wildcard handler's outcome is a full 200, a 304, or the
uniform NotFound; any error of the `try`-pipeline (stat failure — a
missing path —, a directory with indexing disabled, a directory without
`index.html`, an ETag-computation failure, or a body read failure) is
folded into NotFound and no raw I/O error reaches the dispatcher; the
sole raw escape is the `URIError` of `decodeURI`, which runs before the
`try` block. -/
theorem c3_dynamic_uniform_notfound (cfg : Config) (fs : FS) (ev : CondEval)
    (st : Caches) (req : HttpRequest) :
    (cfg.enableDecodeURI = false →
      ((wildcardHandler cfg fs ev st req).1 = DynOutcome.notFoundError ∨
       (∃ hs b, (wildcardHandler cfg fs ev st req).1 = DynOutcome.ok200 hs b) ∨
       (∃ hs, (wildcardHandler cfg fs ev st req).1 =
          DynOutcome.notModified hs)))
  ∧ (∀ path, candidatePath cfg fs req = .ok path →
      ((wildcardHandler cfg fs ev st req).1 = DynOutcome.notFoundError ∨
       (∃ hs b, (wildcardHandler cfg fs ev st req).1 = DynOutcome.ok200 hs b) ∨
       (∃ hs, (wildcardHandler cfg fs ev st req).1 =
          DynOutcome.notModified hs)))
  ∧ (∀ e, candidatePath cfg fs req = .error e →
      (wildcardHandler cfg fs ev st req).1 = DynOutcome.uncaughtError)
  ∧ (∀ path e st1, candidatePath cfg fs req = .ok path →
      dynPipeline cfg fs ev st path req.reqHeaders = (.error e, st1) →
      (wildcardHandler cfg fs ev st req).1 = DynOutcome.notFoundError)
  ∧ (∀ path, candidatePath cfg fs req = .ok path →
      (statResolve fs st path).1 = .error () →
      (wildcardHandler cfg fs ev st req).1 = DynOutcome.notFoundError)
  ∧ (∀ path s, candidatePath cfg fs req = .ok path →
      (statResolve fs st path).1 = .ok s →
      s.isDirectory = true → cfg.indexHTML = false →
      (wildcardHandler cfg fs ev st req).1 = DynOutcome.notFoundError)
  ∧ (∀ path s st1, candidatePath cfg fs req = .ok path →
      statResolve fs st path = (.ok s, st1) →
      (fileResolve cfg fs st1 path s).1 = .error () →
      (wildcardHandler cfg fs ev st req).1 = DynOutcome.notFoundError)
  ∧ (∀ path s st1, candidatePath cfg fs req = .ok path →
      statResolve fs st path = (.ok s, st1) →
      s.isDirectory = true →
      st1.fileC path = none →
      st1.htmlC (path ++ "/index.html") = none →
      fileExists fs (path ++ "/index.html") = false →
      (wildcardHandler cfg fs ev st req).1 = DynOutcome.notFoundError)
  ∧ (cfg.noCache = false → ∀ path fp, fs.etag fp = .error () →
      dynServe cfg fs ev path fp req.reqHeaders = .error ())
  ∧ (∀ path fp hs b, fs.readFile fp = .error () →
      dynServe cfg fs ev path fp req.reqHeaders ≠
        .ok (DynOutcome.ok200 hs b)) := by
  have hB : ∀ path e st1, candidatePath cfg fs req = .ok path →
      dynPipeline cfg fs ev st path req.reqHeaders = (.error e, st1) →
      (wildcardHandler cfg fs ev st req).1 = DynOutcome.notFoundError := by
    intro path e st1 hcp hp
    unfold wildcardHandler
    rw [hcp]
    by_cases hig : shouldIgnore cfg.ignorePatterns path = true
    · simp [hig]
    · have hig' : shouldIgnore cfg.ignorePatterns path = false :=
        Bool.eq_false_iff.mpr hig
      simp [hig', hp]
  have hTri : ∀ path, candidatePath cfg fs req = .ok path →
      ((wildcardHandler cfg fs ev st req).1 = DynOutcome.notFoundError ∨
       (∃ hs b, (wildcardHandler cfg fs ev st req).1 = DynOutcome.ok200 hs b) ∨
       (∃ hs, (wildcardHandler cfg fs ev st req).1 =
          DynOutcome.notModified hs)) := by
    intro path hcp
    unfold wildcardHandler
    rw [hcp]
    by_cases hig : shouldIgnore cfg.ignorePatterns path = true
    · simp [hig]
    · have hig' : shouldIgnore cfg.ignorePatterns path = false :=
        Bool.eq_false_iff.mpr hig
      simp only [hig', Bool.false_eq_true, if_false]
      rcases hp : dynPipeline cfg fs ev st path req.reqHeaders with ⟨r, st1⟩
      cases r with
      | error er => exact Or.inl rfl
      | ok o =>
        dsimp only
        have hserve : ∀ (P fp : String) (o₀ : DynOutcome),
            dynServe cfg fs ev P fp req.reqHeaders = .ok o₀ →
            (∃ hs b, o₀ = DynOutcome.ok200 hs b) ∨
            (∃ hs, o₀ = DynOutcome.notModified hs) := by
          intro P fp o₀ hd
          unfold dynServe at hd
          by_cases hnc : cfg.noCache = true
          · rw [if_pos hnc] at hd
            cases hrf : fs.readFile fp with
            | error er => rw [hrf] at hd; exact Except.noConfusion hd
            | ok buf =>
              rw [hrf] at hd
              dsimp only at hd
              injection hd with hd
              exact Or.inl ⟨cfg.headers, buf, hd.symm⟩
          · rw [if_neg hnc] at hd
            cases het : fs.etag fp with
            | error er => rw [het] at hd; exact Except.noConfusion hd
            | ok etag =>
              rw [het] at hd
              dsimp only at hd
              cases hev : ev req.reqHeaders etag P with
              | error er => rw [hev] at hd; exact Except.noConfusion hd
              | ok bc =>
                rw [hev] at hd
                cases bc with
                | true =>
                  dsimp only at hd
                  injection hd with hd
                  exact Or.inr ⟨cfg.headers, hd.symm⟩
                | false =>
                  dsimp only at hd
                  cases hrf : fs.readFile fp with
                  | error er => rw [hrf] at hd; exact Except.noConfusion hd
                  | ok buf =>
                    rw [hrf] at hd
                    injection hd with hd
                    exact Or.inl ⟨cacheHeaders cfg etag, buf, hd.symm⟩
        unfold dynPipeline at hp
        rcases hsr : statResolve fs st path with ⟨r1, st1'⟩
        rw [hsr] at hp
        cases r1 with
        | error er => simp at hp
        | ok s =>
          by_cases hchk : (!cfg.indexHTML && s.isDirectory) = true
          · simp only [hchk, if_true] at hp
            simp at hp
          · have hchk' := Bool.eq_false_iff.mpr hchk
            simp only [hchk', Bool.false_eq_true, if_false] at hp
            rcases hfr : fileResolve cfg fs st1' path s with ⟨r2, st2⟩
            rw [hfr] at hp
            cases r2 with
            | error er => simp at hp
            | ok fp =>
              dsimp only at hp
              have hpo : dynServe cfg fs ev path fp req.reqHeaders = .ok o :=
                ((Prod.mk.injEq _ _ _ _).mp hp).1
              rcases hserve path fp o hpo with ⟨hs, b, hb⟩ | ⟨hs, hb⟩
              · exact Or.inr (Or.inl ⟨hs, b, by rw [hb]⟩)
              · exact Or.inr (Or.inr ⟨hs, by rw [hb]⟩)
  refine ⟨?_, hTri, ?_, hB, ?_, ?_, ?_, ?_, ?_, ?_⟩
  · intro hdec
    exact hTri (cfg.assets ++ replaceFirst req.pathname (pfxNorm cfg) "")
      (by simp [candidatePath, hdec])
  · intro e hcp
    unfold wildcardHandler
    rw [hcp]
  · intro path hcp h
    rcases hsp : statResolve fs st path with ⟨r1, st1⟩
    rw [hsp] at h
    simp at h
    subst h
    exact hB path () st1 hcp (by simp [dynPipeline, hsp])
  · intro path s hcp h hdir hnoidx
    rcases hsp : statResolve fs st path with ⟨r1, st1⟩
    rw [hsp] at h
    simp at h
    subst h
    refine hB path () st1 hcp ?_
    simp [dynPipeline, hsp, hnoidx, hdir]
  · intro path s st1 hcp hsp hfr
    rcases hfp : fileResolve cfg fs st1 path s with ⟨r2, st2⟩
    rw [hfp] at hfr
    simp at hfr
    subst hfr
    by_cases hchk : (!cfg.indexHTML && s.isDirectory) = true
    · exact hB path () st1 hcp (by simp [dynPipeline, hsp, hchk])
    · have hchk' : (!cfg.indexHTML && s.isDirectory) = false :=
        Bool.eq_false_iff.mpr hchk
      exact hB path () st2 hcp (by simp [dynPipeline, hsp, hchk', hfp])
  · intro path s st1 hcp hsp hdir hfc hhc hfe
    have hfr : (fileResolve cfg fs st1 path s).1 = .error () := by
      simp [fileResolve, hfc, hdir, hhc, hfe]
    rcases hfp : fileResolve cfg fs st1 path s with ⟨r2, st2⟩
    rw [hfp] at hfr
    simp at hfr
    subst hfr
    by_cases hchk : (!cfg.indexHTML && s.isDirectory) = true
    · exact hB path () st1 hcp (by simp [dynPipeline, hsp, hchk])
    · have hchk' : (!cfg.indexHTML && s.isDirectory) = false :=
        Bool.eq_false_iff.mpr hchk
      exact hB path () st2 hcp (by simp [dynPipeline, hsp, hchk', hfp])
  · intro hnc path fp het
    simp [dynServe, hnc, het]
  · intro path fp hs b hrf
    unfold dynServe
    by_cases hnc : cfg.noCache = true
    · simp [hnc, hrf]
    · have hnc' : cfg.noCache = false := Bool.eq_false_iff.mpr hnc
      simp only [hnc', Bool.false_eq_true, if_false]
      cases het : fs.etag fp with
      | error e => simp [het]
      | ok etag =>
        cases hev : ev req.reqHeaders etag path with
        | error e => simp [het, hev]
        | ok b2 =>
          cases b2 with
          | true => simp [het, hev]
          | false => simp [het, hev, hrf]

/-- C3 witness: with an empty cache and a filesystem on which `stat`
fails, the wildcard handler answers NotFound. -/
theorem c3_dynamic_uniform_notfound_witness :
    (wildcardHandler cfgBase fsConst (isCachedSpec fsConst) emptyCaches
        reqPlain).1 = DynOutcome.notFoundError :=
  (c3_dynamic_uniform_notfound cfgBase fsConst (isCachedSpec fsConst)
      emptyCaches reqPlain).2.2.2.2.1 "public/x" (by decide) (by decide)
/-- C4 counterexample: with caching enabled, a request whose
If-None-Match (`"STALE"`) differs from the current ETag (`"ET"`) but
whose If-Modified-Since (999) is at or after the file's last-modified
time (100) yields 304 with an empty body — not the claimed full 200 —
even though the file is readable. -/
theorem c4_stale_etag_fresh_ims_yields_304 :
    runStaticRoute cfgBase fsC4 (isCachedSpec fsC4) "public/a.txt" "ET"
        "public/a.txt"
        { ifNoneMatch := some "STALE", ifModifiedSince := some 999 } =
      .ok (.empty 304 [])
  ∧ ("STALE" : String) ≠ "ET"
  ∧ fsC4.readFile "public/a.txt" = .ok [1, 2] := by
  refine ⟨by decide, by decide, by decide⟩

/-- C4 (amended): with caching enabled, If-None-Match equal to the
current ETag yields 304 with an empty body and only the configured
headers; a request with no validators, or one whose If-None-Match
differs from the ETag and whose If-Modified-Since is absent or strictly
before the file's last-modified time, yields a full 200. -/
theorem c4_conditional_amended (cfg : Config) (fs : FS) (f e k : String)
    (h : ReqHeaders) (buf : List Nat) (hnc : cfg.noCache = false) :
    (h.ifNoneMatch = some e →
       runStaticRoute cfg fs (isCachedSpec fs) f e k h =
         .ok (.empty 304 cfg.headers))
  ∧ (h.ifNoneMatch = none → h.ifModifiedSince = none →
       fs.readFile f = .ok buf →
       runStaticRoute cfg fs (isCachedSpec fs) f e k h =
         .ok (.response 200 (cacheHeaders cfg e) buf))
  ∧ (∀ x, h.ifNoneMatch = some x → x ≠ e →
       (h.ifModifiedSince = none ∨
        (∃ t m, h.ifModifiedSince = some t ∧ fs.stat k = .ok m ∧
          t < m.mtime)) →
       fs.readFile f = .ok buf →
       runStaticRoute cfg fs (isCachedSpec fs) f e k h =
         .ok (.response 200 (cacheHeaders cfg e) buf)) := by
  refine ⟨?_, ?_, ?_⟩
  · intro h1
    simp [runStaticRoute, isCachedSpec, hnc, h1]
  · intro h1 h2 h3
    simp [runStaticRoute, isCachedSpec, hnc, h1, h2, h3]
  · intro x h1 hxe hims hrf
    have hne : ¬ (h.ifNoneMatch = some e) := by
      rw [h1]
      intro hcontra
      exact hxe (Option.some.inj hcontra)
    rcases hims with hnone | ⟨t, m, hsome, hstat, hlt⟩
    · simp [runStaticRoute, isCachedSpec, hnc, hne, hnone, hrf]
    · have hdec : decide (m.mtime ≤ t) = false := by
        simp
        omega
      simp [runStaticRoute, isCachedSpec, hnc, hne, hsome, hstat, hdec, hrf]

/-- C4 witness: a request carrying exactly the current ETag in
If-None-Match receives 304. -/
theorem c4_conditional_amended_witness :
    runStaticRoute cfgBase fsC4 (isCachedSpec fsC4) "public/a.txt" "ET"
        "public/a.txt" { ifNoneMatch := some "ET", ifModifiedSince := none } =
      .ok (.empty 304 cfgBase.headers) :=
  (c4_conditional_amended cfgBase fsC4 "public/a.txt" "ET" "public/a.txt"
      { ifNoneMatch := some "ET", ifModifiedSince := none } []
      (by decide)).1 (by decide)
/-- C5: the conditional evaluator is not keyed by the resolved file.
Concretely: `public/html` is a directory (mtime 100) resolving to
`public/html/index.html` (mtime 500); a request with
`If-Modified-Since: 200` gets 304 because source line 374 passes the
pre-resolution `path` — whose mtime 100 is before 200 — to `isCached`,
while the evaluator keyed by the resolved index file (mtime 500) reports
stale, i.e. a 200 with the index body was due. -/
theorem c5_freshness_keyed_by_unresolved_path :
    (wildcardHandler cfgBase fsC5 (isCachedSpec fsC5) emptyCaches reqC5).1 =
      DynOutcome.notModified []
  ∧ isCachedSpec fsC5 reqC5.reqHeaders "E1" "public/html/index.html" =
      .ok false
  ∧ (fileResolve cfgBase fsC5 (setStatC emptyCaches "public/html" ⟨true, 100⟩)
       "public/html" ⟨true, 100⟩).1 = .ok "public/html/index.html"
  ∧ fsC5.etag "public/html/index.html" = .ok "E1" := by
  refine ⟨by decide, by decide, by decide, by decide⟩

/-- C6: with `noCache` set, neither handler consults the conditional
evaluator (their outcome is independent of it), the static handler
returns exactly the full 200 with the configured headers whenever the
file is readable, the wildcard handler never answers 304, and any 200 it
produces carries exactly the configured headers (no Etag, no
Cache-Control beyond what was configured). -/
theorem c6_nocache_disables_conditional (cfg : Config) (fs : FS)
    (ev ev' : CondEval) (st : Caches) (req : HttpRequest)
    (f e k : String) (h : ReqHeaders) (hnc : cfg.noCache = true) :
    wildcardHandler cfg fs ev st req = wildcardHandler cfg fs ev' st req
  ∧ runStaticRoute cfg fs ev f e k h = runStaticRoute cfg fs ev' f e k h
  ∧ runStaticRoute cfg fs ev f e k h =
      (match fs.readFile f with
       | .ok buf => .ok (.response 200 cfg.headers buf)
       | .error er => .error er)
  ∧ (∀ hs, (wildcardHandler cfg fs ev st req).1 ≠ DynOutcome.notModified hs)
  ∧ (∀ hs b, (wildcardHandler cfg fs ev st req).1 = DynOutcome.ok200 hs b →
       hs = cfg.headers) := by
  have hds : ∀ (ev₀ : CondEval) (path fp : String) (hh : ReqHeaders),
      dynServe cfg fs ev₀ path fp hh =
        (match fs.readFile fp with
         | .ok buf => .ok (.ok200 cfg.headers buf)
         | .error er => .error er) := by
    intro ev₀ path fp hh
    unfold dynServe
    rw [hnc]
    cases hrf : fs.readFile fp <;> simp [hrf]
  have hpipe : ∀ (P : String) (hh : ReqHeaders) (st₀ : Caches),
      dynPipeline cfg fs ev st₀ P hh = dynPipeline cfg fs ev' st₀ P hh := by
    intro P hh st₀
    unfold dynPipeline
    rcases statResolve fs st₀ P with ⟨r1, st1⟩
    cases r1 with
    | error er => rfl
    | ok s =>
      by_cases hchk : (!cfg.indexHTML && s.isDirectory) = true
      · simp [hchk]
      · have hchk' := Bool.eq_false_iff.mpr hchk
        simp only [hchk', Bool.false_eq_true, if_false]
        rcases fileResolve cfg fs st1 P s with ⟨r2, st2⟩
        cases r2 with
        | error er => rfl
        | ok fp => simp [hds ev P fp hh, hds ev' P fp hh]
  have hpl2 : ∀ (P : String) (hh : ReqHeaders) (st₀ : Caches)
      (o : DynOutcome) (st1 : Caches),
      dynPipeline cfg fs ev st₀ P hh = (.ok o, st1) →
      ∃ b, o = DynOutcome.ok200 cfg.headers b := by
    intro P hh st₀ o st1 hp
    unfold dynPipeline at hp
    rcases hsr : statResolve fs st₀ P with ⟨r1, st1'⟩
    rw [hsr] at hp
    cases r1 with
    | error er => simp at hp
    | ok s =>
      by_cases hchk : (!cfg.indexHTML && s.isDirectory) = true
      · simp only [hchk, if_true] at hp
        simp at hp
      · have hchk' := Bool.eq_false_iff.mpr hchk
        simp only [hchk', Bool.false_eq_true, if_false] at hp
        rcases hfr : fileResolve cfg fs st1' P s with ⟨r2, st2⟩
        rw [hfr] at hp
        cases r2 with
        | error er => simp at hp
        | ok fp =>
          dsimp only at hp
          rw [hds ev P fp hh] at hp
          cases hrf : fs.readFile fp with
          | error er =>
            rw [hrf] at hp
            simp at hp
          | ok buf =>
            rw [hrf] at hp
            simp at hp
            exact ⟨buf, hp.1.symm⟩
  refine ⟨?_, ?_, ?_, ?_, ?_⟩
  · unfold wildcardHandler
    cases hcp : candidatePath cfg fs req with
    | error er => rfl
    | ok path =>
      dsimp only
      rw [hpipe path req.reqHeaders st]
  · unfold runStaticRoute
    rw [hnc]
    simp
  · unfold runStaticRoute
    rw [hnc]
    cases hrf : fs.readFile f <;> simp [hrf]
  · intro hs hcontra
    unfold wildcardHandler at hcontra
    cases hcp : candidatePath cfg fs req with
    | error er =>
      rw [hcp] at hcontra
      exact DynOutcome.noConfusion hcontra
    | ok path =>
      rw [hcp] at hcontra
      by_cases hig : shouldIgnore cfg.ignorePatterns path = true
      · simp [hig] at hcontra
      · have hig' := Bool.eq_false_iff.mpr hig
        simp only [hig', Bool.false_eq_true, if_false] at hcontra
        rcases hp : dynPipeline cfg fs ev st path req.reqHeaders with ⟨r, st1⟩
        rw [hp] at hcontra
        cases r with
        | error er => simp at hcontra
        | ok o =>
          simp at hcontra
          rcases hpl2 _ _ _ _ _ hp with ⟨b, hb⟩
          rw [hb] at hcontra
          exact DynOutcome.noConfusion hcontra
  · intro hs b hok
    unfold wildcardHandler at hok
    cases hcp : candidatePath cfg fs req with
    | error er =>
      rw [hcp] at hok
      exact DynOutcome.noConfusion hok
    | ok path =>
      rw [hcp] at hok
      by_cases hig : shouldIgnore cfg.ignorePatterns path = true
      · simp [hig] at hok
      · have hig' := Bool.eq_false_iff.mpr hig
        simp only [hig', Bool.false_eq_true, if_false] at hok
        rcases hp : dynPipeline cfg fs ev st path req.reqHeaders with ⟨r, st1⟩
        rw [hp] at hok
        cases r with
        | error er => simp at hok
        | ok o =>
          simp at hok
          rcases hpl2 _ _ _ _ _ hp with ⟨b2, hb⟩
          rw [hb] at hok
          injection hok with h1 h2
          exact h1.symm

/-- C6 witness: with `noCache`, the static handler's answer is the same
under an evaluator that always reports a cache hit as under the
spec-modelled one. -/
theorem c6_nocache_disables_conditional_witness :
    runStaticRoute { cfgBase with noCache := true } fsC4 (isCachedSpec fsC4)
        "public/a.txt" "ET" "public/a.txt"
        { ifNoneMatch := some "ET", ifModifiedSince := none } =
      runStaticRoute { cfgBase with noCache := true } fsC4 evAlwaysHit
        "public/a.txt" "ET" "public/a.txt"
        { ifNoneMatch := some "ET", ifModifiedSince := none } :=
  (c6_nocache_disables_conditional { cfgBase with noCache := true } fsC4
      (isCachedSpec fsC4) evAlwaysHit emptyCaches reqPlain "public/a.txt" "ET"
      "public/a.txt" { ifNoneMatch := some "ET", ifModifiedSince := none }
      (by decide)).2.1
/-- C7: every full 200 served with caching enabled carries `Etag` set to
the computed ETag and `Cache-Control` set to exactly the directive when
`maxAge` is null and to `"<directive>, max-age=<n>"` otherwise, merged
with the configured extra headers (which are preserved at every other
key) — in the static handler and in the wildcard handler. -/
theorem c7_full_response_cache_headers (cfg : Config) (fs : FS)
    (ev : CondEval) (f e k : String) (h : ReqHeaders) (st : Caches)
    (req : HttpRequest) (hs : List (String × String)) (b : List Nat)
    (hnc : cfg.noCache = false) :
    (runStaticRoute cfg fs ev f e k h = .ok (.response 200 hs b) →
       getHeader hs "Etag" = some e
     ∧ getHeader hs "Cache-Control" =
         some (match cfg.maxAge with
               | none => cfg.directive
               | some n => cfg.directive ++ ", max-age=" ++ toString n)
     ∧ ∀ key, key ≠ "Etag" → key ≠ "Cache-Control" →
         getHeader hs key = getHeader cfg.headers key)
  ∧ ((wildcardHandler cfg fs ev st req).1 = DynOutcome.ok200 hs b →
       ∃ fp et, fs.etag fp = .ok et
     ∧ getHeader hs "Etag" = some et
     ∧ getHeader hs "Cache-Control" =
         some (match cfg.maxAge with
               | none => cfg.directive
               | some n => cfg.directive ++ ", max-age=" ++ toString n)
     ∧ ∀ key, key ≠ "Etag" → key ≠ "Cache-Control" →
         getHeader hs key = getHeader cfg.headers key) := by
  have hccv : (match cfg.maxAge with
               | none => cfg.directive
               | some n => cfg.directive ++ ", max-age=" ++ toString n) =
      ccValue cfg := rfl
  have hfacts : ∀ et, getHeader (cacheHeaders cfg et) "Etag" = some et
      ∧ getHeader (cacheHeaders cfg et) "Cache-Control" =
          some (match cfg.maxAge with
                | none => cfg.directive
                | some n => cfg.directive ++ ", max-age=" ++ toString n)
      ∧ ∀ key, key ≠ "Etag" → key ≠ "Cache-Control" →
          getHeader (cacheHeaders cfg et) key = getHeader cfg.headers key := by
    intro et
    exact ⟨getHeader_cacheHeaders_etag cfg et,
      hccv ▸ getHeader_cacheHeaders_cc cfg et,
      fun key h1 h2 => getHeader_cacheHeaders_other cfg et key h1 h2⟩
  have hserve : ∀ (P fp : String),
      dynServe cfg fs ev P fp req.reqHeaders = .ok (DynOutcome.ok200 hs b) →
      ∃ et, fs.etag fp = .ok et ∧ hs = cacheHeaders cfg et := by
    intro P fp hd
    unfold dynServe at hd
    rw [hnc] at hd
    simp only [Bool.false_eq_true, if_false] at hd
    cases het : fs.etag fp with
    | error er => rw [het] at hd; exact Except.noConfusion hd
    | ok et =>
      rw [het] at hd
      dsimp only at hd
      cases hev : ev req.reqHeaders et P with
      | error er => rw [hev] at hd; exact Except.noConfusion hd
      | ok bc =>
        rw [hev] at hd
        cases bc with
        | true =>
          dsimp only at hd
          injection hd with hd
          exact DynOutcome.noConfusion hd
        | false =>
          dsimp only at hd
          cases hrf : fs.readFile fp with
          | error er => rw [hrf] at hd; exact Except.noConfusion hd
          | ok buf =>
            rw [hrf] at hd
            dsimp only at hd
            injection hd with hd
            injection hd with h1 h2
            exact ⟨et, rfl, h1.symm⟩
  constructor
  · intro heq
    unfold runStaticRoute at heq
    rw [hnc] at heq
    simp only [Bool.false_eq_true, if_false] at heq
    cases hev : ev h e k with
    | error er => rw [hev] at heq; exact Except.noConfusion heq
    | ok bc =>
      rw [hev] at heq
      cases bc with
      | true =>
        dsimp only at heq
        injection heq with heq
        exact Outcome.noConfusion heq
      | false =>
        dsimp only at heq
        cases hrf : fs.readFile f with
        | error er => rw [hrf] at heq; exact Except.noConfusion heq
        | ok buf =>
          rw [hrf] at heq
          dsimp only at heq
          injection heq with heq
          injection heq with h1 h2 h3
          rw [← h2]
          exact hfacts e
  · intro hok
    unfold wildcardHandler at hok
    cases hcp : candidatePath cfg fs req with
    | error er =>
      rw [hcp] at hok
      exact DynOutcome.noConfusion hok
    | ok path =>
      rw [hcp] at hok
      by_cases hig : shouldIgnore cfg.ignorePatterns path = true
      · simp [hig] at hok
      · have hig' := Bool.eq_false_iff.mpr hig
        simp only [hig', Bool.false_eq_true, if_false] at hok
        rcases hp : dynPipeline cfg fs ev st path req.reqHeaders with ⟨r, st1⟩
        rw [hp] at hok
        cases r with
        | error er => simp at hok
        | ok o =>
          dsimp only at hok
          unfold dynPipeline at hp
          rcases hsr : statResolve fs st path with ⟨r1, st1'⟩
          rw [hsr] at hp
          cases r1 with
          | error er => simp at hp
          | ok s =>
            by_cases hchk : (!cfg.indexHTML && s.isDirectory) = true
            · simp only [hchk, if_true] at hp
              simp at hp
            · have hchk' := Bool.eq_false_iff.mpr hchk
              simp only [hchk', Bool.false_eq_true, if_false] at hp
              rcases hfr : fileResolve cfg fs st1' path s with ⟨r2, st2⟩
              rw [hfr] at hp
              cases r2 with
              | error er => simp at hp
              | ok fp =>
                dsimp only at hp
                have hpo : dynServe cfg fs ev path fp
                    req.reqHeaders = .ok o := by
                  have := (Prod.mk.injEq _ _ _ _).mp hp
                  exact this.1
                rw [hok] at hpo
                rcases hserve _ _ hpo with ⟨et, het, hhs⟩
                rw [hhs]
                exact ⟨fp, et, het, hfacts et⟩

/-- C7 witness: the default configuration serves `public/a.txt` with
`Etag: ET` and `Cache-Control: public, max-age=86400`. -/
theorem c7_full_response_cache_headers_witness :
    getHeader (cacheHeaders cfgBase "ET") "Etag" = some "ET"
  ∧ getHeader (cacheHeaders cfgBase "ET") "Cache-Control" =
      some "public, max-age=86400" := by
  have h := (c7_full_response_cache_headers cfgBase fsC4 (isCachedSpec fsC4)
      "public/a.txt" "ET" "public/a.txt"
      { ifNoneMatch := none, ifModifiedSince := none } emptyCaches reqPlain
      (cacheHeaders cfgBase "ET") [1, 2] (by decide)).1 (by decide)
  exact ⟨h.1, h.2.1⟩
/-- C8 counterexample: `pathName.replace('/index.html', '')` removes the
FIRST occurrence, not the trailing suffix.  With prefix `"/index.html"`
and file `/w/public/a/index.html`, the URL path is
`"/index.html/a/index.html"`; the second emitted route's path is
`"/a/index.html"` (first occurrence removed), not the claimed
`"/index.html/a"` (trailing suffix removed). -/
theorem c8_second_route_first_occurrence :
    staticPlugin cfgC8 true "/w" fsConst ["/w/public/a/index.html"] =
      .ok [⟨"GET", "/index.html/a/index.html",
            RouteKind.staticFile "/w/public/a/index.html" "E"
              "/w/public/a/index.html"⟩,
           ⟨"GET", "/a/index.html",
            RouteKind.staticFile "/w/public/a/index.html" "E"
              "/index.html/a/index.html"⟩]
  ∧ ("/a/index.html" : String) ≠ "/index.html/a" := by
  refine ⟨by decide, by decide⟩

/-- C8 (amended): in static mode with `indexHTML`, every emitted route
whose URL path ends with `"/index.html"` is accompanied by a second
route whose path is the first route's path with the FIRST occurrence of
`"/index.html"` removed (this coincides with removing the trailing
suffix whenever the first occurrence is the trailing one); the second
route serves the same underlying file with the same ETag. -/
theorem c8_index_second_route (cfg : Config) (envProd : Bool) (cwd : String)
    (fs : FS) (files : List String) (rs : List Route) (f e : String)
    (hb : staticPlugin cfg envProd cwd fs files = .ok rs)
    (hmode : cfg.alwaysStatic = true ∨
      (envProd = true ∧ files.length ≤ cfg.staticLimit))
    (hf : f ∈ files) (hne : f ≠ "")
    (hig : shouldIgnore cfg.ignorePatterns f = false)
    (het : fs.etag f = .ok e)
    (hidx : cfg.indexHTML = true)
    (hend : strEndsWith (urlPathOf cfg cwd f) "/index.html" = true) :
    (⟨"GET", urlPathOf cfg cwd f, RouteKind.staticFile f e f⟩ : Route) ∈ rs
  ∧ (⟨"GET", replaceFirst (urlPathOf cfg cwd f) "/index.html" "",
      RouteKind.staticFile f e (urlPathOf cfg cwd f)⟩ : Route) ∈ rs := by
  have hall := staticPlugin_static_mode cfg envProd cwd fs files rs hb hmode
  rcases routesFor_ok_primary cfg cwd fs f e hne hig het
    with ⟨lf, hfor, hprim, hsec⟩
  exact ⟨routesForAll_sub cfg cwd fs files rs f lf hall hf hfor _ hprim,
    routesForAll_sub cfg cwd fs files rs f lf hall hf hfor _ (hsec hidx hend)⟩

/-- C8 witness: the two routes of the concrete fixture are both in the
emitted list, sharing the file and the ETag. -/
theorem c8_index_second_route_witness :
    (⟨"GET", urlPathOf cfgC8 "/w" "/w/public/a/index.html",
      RouteKind.staticFile "/w/public/a/index.html" "E"
        "/w/public/a/index.html"⟩ : Route) ∈
      ([⟨"GET", "/index.html/a/index.html",
         RouteKind.staticFile "/w/public/a/index.html" "E"
           "/w/public/a/index.html"⟩,
        ⟨"GET", "/a/index.html",
         RouteKind.staticFile "/w/public/a/index.html" "E"
           "/index.html/a/index.html"⟩] : List Route)
  ∧ (⟨"GET", replaceFirst (urlPathOf cfgC8 "/w" "/w/public/a/index.html")
        "/index.html" "",
      RouteKind.staticFile "/w/public/a/index.html" "E"
        (urlPathOf cfgC8 "/w" "/w/public/a/index.html")⟩ : Route) ∈
      ([⟨"GET", "/index.html/a/index.html",
         RouteKind.staticFile "/w/public/a/index.html" "E"
           "/w/public/a/index.html"⟩,
        ⟨"GET", "/a/index.html",
         RouteKind.staticFile "/w/public/a/index.html" "E"
           "/index.html/a/index.html"⟩] : List Route) :=
  c8_index_second_route cfgC8 true "/w" fsConst ["/w/public/a/index.html"]
    _ "/w/public/a/index.html" "E" (by decide) (Or.inl (by decide))
    (by decide) (by decide) (by decide) (by decide) (by decide) (by decide)
theorem runStaticRoute_body_from_file (cfg : Config) (fs : FS)
    (ev : CondEval) (f e k : String) (h : ReqHeaders)
    (hs : List (String × String)) (b : List Nat)
    (heq : runStaticRoute cfg fs ev f e k h = .ok (.response 200 hs b)) :
    fs.readFile f = .ok b := by
  unfold runStaticRoute at heq
  by_cases hnc : cfg.noCache = true
  · rw [if_pos hnc] at heq
    cases hrf : fs.readFile f with
    | error er => rw [hrf] at heq; exact Except.noConfusion heq
    | ok buf =>
      rw [hrf] at heq
      dsimp only at heq
      injection heq with heq
      injection heq with h1 h2 h3
      rw [h3]
  · rw [if_neg hnc] at heq
    cases hev : ev h e k with
    | error er => rw [hev] at heq; exact Except.noConfusion heq
    | ok bc =>
      rw [hev] at heq
      cases bc with
      | true =>
        dsimp only at heq
        injection heq with heq
        exact Outcome.noConfusion heq
      | false =>
        dsimp only at heq
        cases hrf : fs.readFile f with
        | error er => rw [hrf] at heq; exact Except.noConfusion heq
        | ok buf =>
          rw [hrf] at heq
          dsimp only at heq
          injection heq with heq
          injection heq with h1 h2 h3
          rw [h3]

theorem pathJoin_empty_right (a : String) (ha : a ≠ "") :
    pathJoin a "" = a := by
  unfold pathJoin
  rw [if_neg (by simp [ha]), if_neg ha, if_pos rfl]

theorem pathJoin_empty_empty : pathJoin "" "" = "." := by
  unfold pathJoin
  rw [if_pos ⟨rfl, rfl⟩]

/-- C9: with `noExtension` set, for a file whose relative path contains
a `'.'`, everything from the final `'.'` on is stripped from the
generated URL path only: the relative path decomposes as the stripped
part, a dot, and a dot-free suffix; the emitted route still carries the
unchanged filesystem path `f`, and any 200 it serves reads exactly
`f`'s bytes. -/
theorem c9_strip_extension_url_only (cfg : Config) (envProd : Bool)
    (cwd : String) (fs : FS) (files : List String) (rs : List Route)
    (f e : String)
    (hb : staticPlugin cfg envProd cwd fs files = .ok rs)
    (hmode : cfg.alwaysStatic = true ∨
      (envProd = true ∧ files.length ≤ cfg.staticLimit))
    (hf : f ∈ files) (hne : f ≠ "")
    (hig : shouldIgnore cfg.ignorePatterns f = false)
    (het : fs.etag f = .ok e)
    (hnx : cfg.noExtension = true)
    (hdot : '.' ∈ (replaceFirst f (assetsDirOf cfg cwd) "").data) :
    (∃ sfx, (replaceFirst f (assetsDirOf cfg cwd) "").data =
        (relPathOf cfg cwd f).data ++ '.' :: sfx ∧ '.' ∉ sfx)
  ∧ (⟨"GET", pathJoin (pfxNorm cfg) (relPathOf cfg cwd f),
      RouteKind.staticFile f e f⟩ : Route) ∈ rs
  ∧ (∀ (ev : CondEval) (h : ReqHeaders) (hs : List (String × String))
        (b : List Nat),
      runStaticRoute cfg fs ev f e f h = .ok (.response 200 hs b) →
      fs.readFile f = .ok b) := by
  have hrel : relPathOf cfg cwd f =
      stripExt (replaceFirst f (assetsDirOf cfg cwd) "") := by
    simp [relPathOf, hnx]
  refine ⟨?_, ?_, ?_⟩
  · rcases stripExtL_decomp _ hdot with ⟨sfx, hsplit, hsfx⟩
    exact ⟨sfx, by rw [hrel]; exact hsplit, hsfx⟩
  · have hall := staticPlugin_static_mode cfg envProd cwd fs files rs hb hmode
    rcases routesFor_ok_primary cfg cwd fs f e hne hig het
      with ⟨lf, hfor, hprim, _⟩
    exact routesForAll_sub cfg cwd fs files rs f lf hall hf hfor _ hprim
  · intro ev h hs b heq
    exact runStaticRoute_body_from_file cfg fs ev f e f h hs b heq

/-- C9 witness: `takodachi.png` becomes servable at `"/takodachi"`
(prefix `"/"` normalises to `""`), while the route still carries the
original file path. -/
theorem c9_strip_extension_url_only_witness :
    (∃ sfx, (replaceFirst "/w/public/takodachi.png"
        (assetsDirOf cfgC10 "/w") "").data =
        (relPathOf cfgC10 "/w" "/w/public/takodachi.png").data ++
          '.' :: sfx ∧ '.' ∉ sfx)
  ∧ (⟨"GET", pathJoin (pfxNorm cfgC10)
        (relPathOf cfgC10 "/w" "/w/public/takodachi.png"),
      RouteKind.staticFile "/w/public/takodachi.png" "E"
        "/w/public/takodachi.png"⟩ : Route) ∈
      ([⟨"GET", "/takodachi",
         RouteKind.staticFile "/w/public/takodachi.png" "E"
           "/w/public/takodachi.png"⟩] : List Route) := by
  have h := c9_strip_extension_url_only cfgC10 true "/w" fsConst
    ["/w/public/takodachi.png"]
    [⟨"GET", "/takodachi",
      RouteKind.staticFile "/w/public/takodachi.png" "E"
        "/w/public/takodachi.png"⟩]
    "/w/public/takodachi.png" "E" (by decide) (Or.inl (by decide))
    (by decide) (by decide) (by decide) (by decide) (by decide) (by decide)
  exact ⟨h.1, h.2.1⟩

/-- C10 counterexample: with the configured prefix `"/"` (normalised to
the empty effective prefix), `noExtension` set, and a file `README`
with no dot, the emitted route's path is `"."` — Node's
`join('', '')` — and not the configured prefix `"/"`. -/
theorem c10_no_dot_empty_prefix_dot_path :
    staticPlugin cfgC10 true "/w" fsConst ["/w/public/README"] =
      .ok [⟨"GET", ".",
            RouteKind.staticFile "/w/public/README" "E" "/w/public/README"⟩]
  ∧ ("." : String) ≠ "/" := by
  refine ⟨by decide, by decide⟩

/-- C10 (amended): with `noExtension`, stripping acts on the whole
relative path at its last dot: a file with no dot at all loses its
entire relative path, the route's path being `join(prefix, "")` — the
configured prefix when the effective prefix is non-empty, `"."` when it
is empty (prefix `"/"` or `""`); a file whose relative path contains a
dot (even one in a directory component) gets the prefix joined with the
relative path truncated at the last dot. -/
theorem c10_strip_extension_truncation (cfg : Config) (envProd : Bool)
    (cwd : String) (fs : FS) (files : List String) (rs : List Route)
    (f e : String)
    (hb : staticPlugin cfg envProd cwd fs files = .ok rs)
    (hmode : cfg.alwaysStatic = true ∨
      (envProd = true ∧ files.length ≤ cfg.staticLimit))
    (hf : f ∈ files) (hne : f ≠ "")
    (hig : shouldIgnore cfg.ignorePatterns f = false)
    (het : fs.etag f = .ok e)
    (hnx : cfg.noExtension = true) :
    ('.' ∉ (replaceFirst f (assetsDirOf cfg cwd) "").data →
       relPathOf cfg cwd f = ""
     ∧ (⟨"GET", pathJoin (pfxNorm cfg) "",
         RouteKind.staticFile f e f⟩ : Route) ∈ rs
     ∧ (pfxNorm cfg ≠ "" → pathJoin (pfxNorm cfg) "" = pfxNorm cfg)
     ∧ (pfxNorm cfg = "" → pathJoin (pfxNorm cfg) "" = "."))
  ∧ ('.' ∈ (replaceFirst f (assetsDirOf cfg cwd) "").data →
       (∃ sfx, (replaceFirst f (assetsDirOf cfg cwd) "").data =
          (relPathOf cfg cwd f).data ++ '.' :: sfx ∧ '.' ∉ sfx)
     ∧ (⟨"GET", pathJoin (pfxNorm cfg) (relPathOf cfg cwd f),
         RouteKind.staticFile f e f⟩ : Route) ∈ rs) := by
  have hall := staticPlugin_static_mode cfg envProd cwd fs files rs hb hmode
  rcases routesFor_ok_primary cfg cwd fs f e hne hig het
    with ⟨lf, hfor, hprim, _⟩
  have hmem := routesForAll_sub cfg cwd fs files rs f lf hall hf hfor _ hprim
  have hrel : relPathOf cfg cwd f =
      stripExt (replaceFirst f (assetsDirOf cfg cwd) "") := by
    simp [relPathOf, hnx]
  constructor
  · intro hnd
    have hempty : relPathOf cfg cwd f = "" := by
      rw [hrel]
      unfold stripExt
      rw [stripExtL_no_dot _ hnd]
    refine ⟨hempty, ?_, ?_, ?_⟩
    · have : urlPathOf cfg cwd f = pathJoin (pfxNorm cfg) "" := by
        unfold urlPathOf
        rw [hempty]
      rw [← this]
      exact hmem
    · intro hp
      exact pathJoin_empty_right _ hp
    · intro hp
      rw [hp]
      exact pathJoin_empty_empty
  · intro hdot
    refine ⟨?_, ?_⟩
    · rcases stripExtL_decomp _ hdot with ⟨sfx, hsplit, hsfx⟩
      exact ⟨sfx, by rw [hrel]; exact hsplit, hsfx⟩
    · exact hmem

/-- C10 witness: the dot-less file `README` under the effective empty
prefix yields the route path `join('', '') = "."`. -/
theorem c10_strip_extension_truncation_witness :
    relPathOf cfgC10 "/w" "/w/public/README" = ""
  ∧ (⟨"GET", pathJoin (pfxNorm cfgC10) "",
      RouteKind.staticFile "/w/public/README" "E" "/w/public/README"⟩ :
        Route) ∈
      ([⟨"GET", ".",
         RouteKind.staticFile "/w/public/README" "E" "/w/public/README"⟩] :
        List Route)
  ∧ (pfxNorm cfgC10 ≠ "" → pathJoin (pfxNorm cfgC10) "" = pfxNorm cfgC10)
  ∧ (pfxNorm cfgC10 = "" → pathJoin (pfxNorm cfgC10) "" = ".") :=
  (c10_strip_extension_truncation cfgC10 true "/w" fsConst
    ["/w/public/README"]
    [⟨"GET", ".", RouteKind.staticFile "/w/public/README" "E"
        "/w/public/README"⟩]
    "/w/public/README" "E" (by decide) (Or.inl (by decide)) (by decide)
    (by decide) (by decide) (by decide) (by decide)).1 (by decide)
